import Mathlib

/-!
Shallow embedding of the Balote replay engine
(src/frontend/js/state.js: buildInitialState, applyAction, computeStateAt),
together with spec-modelled trick resolution (the rules module the design
notes mention is not among the sources).

Cards are plain strings such as "AH" or "TS"; the renderer reads the suit as
the last character of the string and the rank as the rest.  Player indices in
actions are 0..3 (modelled as Fin 4 so that hand indexing is total, matching
well-formed recorded logs).  JavaScript structuredClone makes applyAction a
pure function of its input, which is exactly what a Lean function is.
-/

namespace Balote

abbrev Card := String

abbrev Suit := String

/-- One entry of the trick buffer: the JS object `{ player, card }`. -/
structure TrickEntry where
  player : Nat
  card : Card
deriving DecidableEq, Repr

/-- The four hands, the JS object `hands` keyed by player index 0..3. -/
structure Hands where
  h0 : List Card
  h1 : List Card
  h2 : List Card
  h3 : List Card
deriving DecidableEq, Repr

/-- Read a hand: the JS expression `hands[p]`. -/
def Hands.get (h : Hands) (i : Fin 4) : List Card :=
  match i with
  | ⟨0, _⟩ => h.h0
  | ⟨1, _⟩ => h.h1
  | ⟨2, _⟩ => h.h2
  | ⟨3, _⟩ => h.h3

/-- Update one hand: the JS assignment `hands[p] = l`. -/
def Hands.set (h : Hands) (i : Fin 4) (l : List Card) : Hands :=
  match i with
  | ⟨0, _⟩ => { h with h0 := l }
  | ⟨1, _⟩ => { h with h1 := l }
  | ⟨2, _⟩ => { h with h2 := l }
  | ⟨3, _⟩ => { h with h3 := l }

/-- The tricksWon object `{ 0: n0, 1: n1, 2: n2, 3: n3 }`. -/
structure Wins where
  w0 : Nat
  w1 : Nat
  w2 : Nat
  w3 : Nat
deriving DecidableEq, Repr

/-- A type-specific action payload; fields that a given action type does not
use are irrelevant defaults (JS would read `undefined` there). -/
structure Payload where
  card : Card := ""
  mode : Option String := none
  trump_suit : Option Suit := none
  floor_taker : Nat := 0
deriving DecidableEq, Repr

/-- An action record of the log: a type tag string (PLAY_CARD,
FINALIZE_CONTRACT, PASS, BID_...), the acting player, and a payload.
applyAction dispatches on the string `type`, exactly as the JS code does. -/
structure Action where
  type : String
  player : Fin 4 := ⟨0, by omega⟩
  payload : Payload := {}
deriving DecidableEq, Repr

/-- The GameState snapshot of state.js. -/
structure GameState where
  phase : String
  dealer : Nat
  currentPlayer : Nat
  floorCard : Option Card
  hands : Hands
  trick : List TrickEntry
  trickComplete : Bool
  tricksWon : Wins
  mode : Option String
  trump : Option Suit
deriving DecidableEq, Repr

/-- The `json.initial.bidding` object. -/
structure BiddingData where
  hands_5 : Hands
  current_player : Nat
  floor_card : Option Card
deriving DecidableEq, Repr

/-- The `json.initial.meta` object. -/
structure MetaData where
  dealer : Nat
deriving DecidableEq, Repr

/-- The `json.initial` object. -/
structure InitialData where
  start_phase : String
  meta : MetaData
  bidding : BiddingData
deriving DecidableEq, Repr

/-- A recorded round: initial deal plus the action log. -/
structure RoundJson where
  initial : InitialData
  actions : List Action
deriving DecidableEq, Repr

/-- buildInitialState of state.js: copies the dealt hands and initialises the
trick buffer, trick counts and contract fields. -/
def buildInitialState (json : RoundJson) : GameState :=
  { phase := json.initial.start_phase
    dealer := json.initial.meta.dealer
    currentPlayer := json.initial.bidding.current_player
    floorCard := json.initial.bidding.floor_card
    hands := json.initial.bidding.hands_5
    trick := []
    trickComplete := false
    tricksWon := ⟨0, 0, 0, 0⟩
    mode := none
    trump := none }

/-- applyAction of state.js.  The JS function first deep-clones the input
(structuredClone), so it is a pure function from (state, action) to a new
state; the clone is the identity of this embedding.  It then clears a
completed trick, handles FINALIZE_CONTRACT, and handles PLAY_CARD; the hand
update `hands[p].filter(c => c !== card)` removes every occurrence equal to
the played card (cards are strings, compared by value). -/
def applyAction (state : GameState) (action : Action) : GameState :=
  let s := if state.trickComplete then
      { state with trick := [], trickComplete := false }
    else state
  let s := if action.type = "FINALIZE_CONTRACT" then
      { s with phase := "PLAYING"
               mode := action.payload.mode
               trump := action.payload.trump_suit
               currentPlayer := action.payload.floor_taker }
    else s
  let s := if action.type = "PLAY_CARD" then
      let p := action.player
      let card := action.payload.card
      let s := { s with
        hands := s.hands.set p ((s.hands.get p).filter (fun c => c ≠ card))
        trick := s.trick ++ [({ player := (p : Nat), card := card } : TrickEntry)] }
      if s.trick.length = 4 then
        { s with currentPlayer := (p : Nat), trickComplete := true }
      else
        { s with currentPlayer := ((p : Nat) + 1) % 4 }
    else s
  s

/-- computeStateAt of state.js: fold applyAction over the first `step`
actions of the log, starting from the initial snapshot.  (The JS loop indexes
`json.actions[i]` for i < step; the UI only calls it with
step ≤ actions.length, which `List.take` models.) -/
def computeStateAt (json : RoundJson) (step : Nat) : GameState :=
  (json.actions.take step).foldl applyAction (buildInitialState json)

/-- The suit of a card string: its last character (renderer.js reads
`card.slice(-1)`). -/
def cardSuit (c : Card) : Suit := c.takeRight 1

/-- Modelled from the spec: resolveTrick of the rules engine, which is named
by the design notes (rules.py) but absent from the sources.  Following the
spec words: the winner is the player of the highest-ranked card among trump
cards if any trump was played, otherwise the highest-ranked card of the suit
that was led.  The rank ladder is an open parameter of the spec, so it is
taken as an argument. -/
def resolveTrick (rankValue : Card → Nat) (trump : Option Suit)
    (trick : List TrickEntry) : Nat :=
  let led : Suit := match trick with
    | [] => ""
    | e :: _ => cardSuit e.card
  let trumps : List TrickEntry := match trump with
    | some t => trick.filter (fun e => cardSuit e.card = t)
    | none => []
  let pool : List TrickEntry := if trumps.isEmpty then
      trick.filter (fun e => cardSuit e.card = led)
    else trumps
  match pool with
  | [] => 0
  | e :: es =>
      (es.foldl (fun (b x : TrickEntry) =>
        if rankValue b.card < rankValue x.card then x else b) e).player

/-- Modelled from the spec: one concrete rank ladder (ace high, then ten,
pictures, then pips), used only to instantiate resolveTrick at concrete
tricks whose winner does not depend on the ladder. -/
def rankValueA (c : Card) : Nat :=
  match c.dropRight 1 with
  | "A" => 8
  | "T" => 7
  | "K" => 6
  | "Q" => 5
  | "J" => 4
  | "9" => 3
  | "8" => 2
  | "7" => 1
  | _ => 0

/-! Concrete sample data used by counterexamples and witnesses. -/

/-- A small concrete deal. -/
def sampleHands : Hands := ⟨["AH", "7C"], ["8C", "9C"], ["TC", "JC"], ["QC", "KC"]⟩

/-- A concrete snapshot during bidding, with a floor card showing. -/
def sampleState : GameState :=
  { phase := "BIDDING"
    dealer := 0
    currentPlayer := 1
    floorCard := some "7S"
    hands := sampleHands
    trick := []
    trickComplete := false
    tricksWon := ⟨0, 0, 0, 0⟩
    mode := none
    trump := none }

/-- A concrete FINALIZE_CONTRACT action (Sun contract, no trump). -/
def finalizeSun : Action :=
  { type := "FINALIZE_CONTRACT"
    player := ⟨1, by omega⟩
    payload := { mode := some "SUN", trump_suit := none, floor_taker := 1 } }

/-- A concrete snapshot in play with three cards already in the trick:
player 0 led the ace of hearts, players 1 and 2 discarded clubs, no trump. -/
def trick3State : GameState :=
  { phase := "PLAYING"
    dealer := 0
    currentPlayer := 3
    floorCard := none
    hands := ⟨[], [], [], ["9C", "KC"]⟩
    trick := [⟨0, "AH"⟩, ⟨1, "7C"⟩, ⟨2, "8C"⟩]
    trickComplete := false
    tricksWon := ⟨0, 0, 0, 0⟩
    mode := some "SUN"
    trump := none }

/-- Player 3 plays the nine of clubs, completing the trick. -/
def playNine : Action :=
  { type := "PLAY_CARD", player := ⟨3, by omega⟩, payload := { card := "9C" } }

/-- Player 0 plays the king of diamonds, a card held by nobody. -/
def playForeign : Action :=
  { type := "PLAY_CARD", player := ⟨0, by omega⟩, payload := { card := "KD" } }

/-- A concrete PASS action. -/
def passAction : Action := { type := "PASS", player := ⟨2, by omega⟩ }

/-- A concrete snapshot in play in which all four hands are empty. -/
def emptyHandsState : GameState :=
  { phase := "PLAYING"
    dealer := 0
    currentPlayer := 2
    floorCard := none
    hands := ⟨[], [], [], []⟩
    trick := []
    trickComplete := false
    tricksWon := ⟨1, 1, 1, 0⟩
    mode := some "SUN"
    trump := none }

/-! Helper lemmas about applyAction. -/

/-- Writing back the hand just read leaves the hands unchanged. -/
theorem Hands.set_get_self (h : Hands) (i : Fin 4) : h.set i (h.get i) = h := by
  obtain ⟨v, hv⟩ := i
  interval_cases v <;> (cases h; rfl)

/-- The trick-clearing prelude of applyAction, as a named function. -/
def clearTrick (s : GameState) : GameState :=
  if s.trickComplete then { s with trick := [], trickComplete := false } else s

/-- The hand-update and trick-push part of the PLAY_CARD branch, as a named
function. -/
def playStep (s : GameState) (p : Fin 4) (card : Card) : GameState :=
  { s with
    hands := s.hands.set p ((s.hands.get p).filter (fun c => c ≠ card))
    trick := s.trick ++ [({ player := (p : Nat), card := card } : TrickEntry)] }

/-- Characterization of applyAction on PLAY_CARD actions. -/
theorem applyAction_play_eq (s : GameState) (a : Action) (h : a.type = "PLAY_CARD") :
    applyAction s a =
      (if (playStep (clearTrick s) a.player a.payload.card).trick.length = 4 then
        { playStep (clearTrick s) a.player a.payload.card with
          currentPlayer := (a.player : Nat), trickComplete := true }
      else
        { playStep (clearTrick s) a.player a.payload.card with
          currentPlayer := ((a.player : Nat) + 1) % 4 }) := by
  have hf : ¬(a.type = "FINALIZE_CONTRACT") := by simp [h]
  simp [applyAction, h, hf, clearTrick, playStep]

/-- Characterization of applyAction on FINALIZE_CONTRACT actions. -/
theorem applyAction_finalize_eq (s : GameState) (a : Action)
    (h : a.type = "FINALIZE_CONTRACT") :
    applyAction s a =
      { clearTrick s with
        phase := "PLAYING"
        mode := a.payload.mode
        trump := a.payload.trump_suit
        currentPlayer := a.payload.floor_taker } := by
  have hp : ¬(a.type = "PLAY_CARD") := by simp [h]
  simp [applyAction, h, hp, clearTrick]

/-- Characterization of applyAction on all other action types. -/
theorem applyAction_other_eq (s : GameState) (a : Action)
    (h1 : ¬(a.type = "FINALIZE_CONTRACT")) (h2 : ¬(a.type = "PLAY_CARD")) :
    applyAction s a = clearTrick s := by
  simp [applyAction, h1, h2, clearTrick]

@[simp] theorem clearTrick_phase (s : GameState) : (clearTrick s).phase = s.phase := by
  unfold clearTrick; split <;> rfl

@[simp] theorem clearTrick_dealer (s : GameState) : (clearTrick s).dealer = s.dealer := by
  unfold clearTrick; split <;> rfl

@[simp] theorem clearTrick_currentPlayer (s : GameState) :
    (clearTrick s).currentPlayer = s.currentPlayer := by
  unfold clearTrick; split <;> rfl

@[simp] theorem clearTrick_floorCard (s : GameState) :
    (clearTrick s).floorCard = s.floorCard := by
  unfold clearTrick; split <;> rfl

@[simp] theorem clearTrick_hands (s : GameState) : (clearTrick s).hands = s.hands := by
  unfold clearTrick; split <;> rfl

@[simp] theorem clearTrick_tricksWon (s : GameState) :
    (clearTrick s).tricksWon = s.tricksWon := by
  unfold clearTrick; split <;> rfl

@[simp] theorem clearTrick_mode (s : GameState) : (clearTrick s).mode = s.mode := by
  unfold clearTrick; split <;> rfl

@[simp] theorem clearTrick_trump (s : GameState) : (clearTrick s).trump = s.trump := by
  unfold clearTrick; split <;> rfl

@[simp] theorem clearTrick_trickComplete (s : GameState) :
    (clearTrick s).trickComplete = false := by
  unfold clearTrick; split <;> simp_all

@[simp] theorem clearTrick_trick (s : GameState) :
    (clearTrick s).trick = if s.trickComplete then [] else s.trick := by
  unfold clearTrick; split <;> simp_all

@[simp] theorem playStep_phase (s : GameState) (p : Fin 4) (c : Card) :
    (playStep s p c).phase = s.phase := rfl

@[simp] theorem playStep_dealer (s : GameState) (p : Fin 4) (c : Card) :
    (playStep s p c).dealer = s.dealer := rfl

@[simp] theorem playStep_currentPlayer (s : GameState) (p : Fin 4) (c : Card) :
    (playStep s p c).currentPlayer = s.currentPlayer := rfl

@[simp] theorem playStep_floorCard (s : GameState) (p : Fin 4) (c : Card) :
    (playStep s p c).floorCard = s.floorCard := rfl

@[simp] theorem playStep_tricksWon (s : GameState) (p : Fin 4) (c : Card) :
    (playStep s p c).tricksWon = s.tricksWon := rfl

@[simp] theorem playStep_mode (s : GameState) (p : Fin 4) (c : Card) :
    (playStep s p c).mode = s.mode := rfl

@[simp] theorem playStep_trump (s : GameState) (p : Fin 4) (c : Card) :
    (playStep s p c).trump = s.trump := rfl

@[simp] theorem playStep_trickComplete (s : GameState) (p : Fin 4) (c : Card) :
    (playStep s p c).trickComplete = s.trickComplete := rfl

@[simp] theorem playStep_hands (s : GameState) (p : Fin 4) (c : Card) :
    (playStep s p c).hands = s.hands.set p ((s.hands.get p).filter (fun x => x ≠ c)) := rfl

@[simp] theorem playStep_trick (s : GameState) (p : Fin 4) (c : Card) :
    (playStep s p c).trick =
      s.trick ++ [({ player := (p : Nat), card := c } : TrickEntry)] := rfl

/-- C10: for every snapshot and every action whose type is neither
FINALIZE_CONTRACT nor PLAY_CARD (BID_*, PASS, ...), applyAction returns the
input snapshot unchanged in every field, except that a previously completed
trick is cleared (trick emptied, trickComplete reset to false); in
particular such actions never change currentPlayer, and applyAction is a
total function, so they never fail. -/
theorem bid_actions_only_clear (s : GameState) (a : Action)
    (h1 : a.type ≠ "FINALIZE_CONTRACT") (h2 : a.type ≠ "PLAY_CARD") :
    applyAction s a =
      (if s.trickComplete then { s with trick := [], trickComplete := false }
       else s) :=
  applyAction_other_eq s a h1 h2

/-- Witness for C10: a concrete PASS on a concrete snapshot. -/
theorem bid_actions_only_clear_witness :
    applyAction sampleState passAction =
      (if sampleState.trickComplete then
        { sampleState with trick := [], trickComplete := false }
       else sampleState) :=
  bid_actions_only_clear sampleState passAction (by decide) (by decide)

/-- C5 counterexample: a snapshot in play in which every hand is already
empty; applying a further action does not move the phase to DONE (the code
has no transition to DONE at all). -/
theorem done_phase_cex :
    emptyHandsState.hands = ⟨[], [], [], []⟩ ∧
    (applyAction emptyHandsState passAction).hands = ⟨[], [], [], []⟩ ∧
    (applyAction emptyHandsState passAction).phase = "PLAYING" ∧
    (applyAction emptyHandsState passAction).phase ≠ "DONE" := by decide

/-- C5 amended: applyAction changes the phase only in the FINALIZE_CONTRACT
case, where it sets PLAYING; it never transitions to DONE, whether or not
all hands are empty, so a produced snapshot has phase DONE only if the input
already had it. -/
theorem phase_never_done (s : GameState) (a : Action) :
    (applyAction s a).phase =
      (if a.type = "FINALIZE_CONTRACT" then "PLAYING" else s.phase) ∧
    ((applyAction s a).phase = "DONE" → s.phase = "DONE") := by
  have hphase : (applyAction s a).phase =
      (if a.type = "FINALIZE_CONTRACT" then "PLAYING" else s.phase) := by
    by_cases h1 : a.type = "FINALIZE_CONTRACT"
    · rw [applyAction_finalize_eq s a h1]
      simp [h1]
    · by_cases h2 : a.type = "PLAY_CARD"
      · rw [applyAction_play_eq s a h2]
        split <;> simp [h1]
      · rw [applyAction_other_eq s a h1 h2]
        simp [h1]
  refine ⟨hphase, ?_⟩
  intro hd
  rw [hphase] at hd
  by_cases h1 : a.type = "FINALIZE_CONTRACT"
  · rw [if_pos h1] at hd
    exact absurd hd (by decide)
  · rwa [if_neg h1] at hd

/-- C4 counterexample: FINALIZE_CONTRACT does not clear the floor card: it
is still present, unchanged, in the produced snapshot. -/
theorem finalize_keeps_floorCard_cex :
    sampleState.floorCard = some "7S" ∧
    (applyAction sampleState finalizeSun).floorCard = some "7S" ∧
    (applyAction sampleState finalizeSun).floorCard ≠ none := by decide

/-- C4 amended: FINALIZE_CONTRACT sets mode and trump from the payload, sets
phase = PLAYING and currentPlayer = floor_taker, but leaves floorCard
unchanged (the code never clears it). -/
theorem finalize_contract_fields (s : GameState) (a : Action)
    (h : a.type = "FINALIZE_CONTRACT") :
    (applyAction s a).phase = "PLAYING" ∧
    (applyAction s a).mode = a.payload.mode ∧
    (applyAction s a).trump = a.payload.trump_suit ∧
    (applyAction s a).currentPlayer = a.payload.floor_taker ∧
    (applyAction s a).floorCard = s.floorCard := by
  rw [applyAction_finalize_eq s a h]
  exact ⟨rfl, rfl, rfl, rfl, by simp⟩

/-- Witness for C4: the concrete Sun finalization on the sample snapshot. -/
theorem finalize_contract_fields_witness :
    (applyAction sampleState finalizeSun).phase = "PLAYING" ∧
    (applyAction sampleState finalizeSun).mode = finalizeSun.payload.mode ∧
    (applyAction sampleState finalizeSun).trump = finalizeSun.payload.trump_suit ∧
    (applyAction sampleState finalizeSun).currentPlayer =
      finalizeSun.payload.floor_taker ∧
    (applyAction sampleState finalizeSun).floorCard = sampleState.floorCard :=
  finalize_contract_fields sampleState finalizeSun rfl

/-- C6: a PLAY_CARD by player p that leaves the trick with fewer than 4
cards sets currentPlayer to (p + 1) mod 4. -/
theorem play_noncompleting_advances (s : GameState) (a : Action)
    (h : a.type = "PLAY_CARD")
    (hlen : (applyAction s a).trick.length < 4) :
    (applyAction s a).currentPlayer = ((a.player : Nat) + 1) % 4 := by
  rw [applyAction_play_eq s a h] at hlen ⊢
  by_cases hc :
      (playStep (clearTrick s) a.player a.payload.card).trick.length = 4
  · exfalso
    rw [if_pos hc] at hlen
    have hlt : (playStep (clearTrick s) a.player a.payload.card).trick.length < 4 :=
      hlen
    omega
  · rw [if_neg hc]

/-- Witness for C6: player 0 opens a trick, and the lead moves to player 1. -/
theorem play_noncompleting_advances_witness :
    (applyAction sampleState playForeign).currentPlayer = 1 :=
  play_noncompleting_advances sampleState playForeign rfl (by decide)

/-- C2 counterexample: completing a Sun trick in which player 0 led the only
heart (the ace, the highest card of the led suit, no trump in play, so
player 0 is the resolved winner under the spec rule for every rank ladder)
still sets currentPlayer to 3, the player of the 4th card. -/
theorem trick_winner_cex :
    (applyAction trick3State playNine).trick.length = 4 ∧
    (applyAction trick3State playNine).trickComplete = true ∧
    resolveTrick rankValueA (applyAction trick3State playNine).trump
      (applyAction trick3State playNine).trick = 0 ∧
    (applyAction trick3State playNine).currentPlayer = 3 ∧
    (applyAction trick3State playNine).currentPlayer ≠
      resolveTrick rankValueA (applyAction trick3State playNine).trump
        (applyAction trick3State playNine).trick := by decide

/-- C2 amended: after a trick-completing PLAY_CARD the code sets
currentPlayer to the acting player (the player of the 4th card), with no
trick resolution: there is no comparison of ranks, trumps or led suit. -/
theorem play_completing_sets_actor (s : GameState) (a : Action)
    (h : a.type = "PLAY_CARD")
    (hlen : (applyAction s a).trick.length = 4) :
    (applyAction s a).currentPlayer = (a.player : Nat) := by
  rw [applyAction_play_eq s a h] at hlen ⊢
  by_cases hc :
      (playStep (clearTrick s) a.player a.payload.card).trick.length = 4
  · rw [if_pos hc]
  · exfalso
    rw [if_neg hc] at hlen
    exact hc hlen

/-- Witness for C2: the 4th card of the concrete trick is played by player 3
and the lead stays with player 3. -/
theorem play_completing_sets_actor_witness :
    (applyAction trick3State playNine).currentPlayer = 3 :=
  play_completing_sets_actor trick3State playNine rfl (by decide)

/-- C3 counterexample: the 4th card marks the trick complete, but no entry
of tricksWon is incremented: the counts are identical before and after. -/
theorem tricksWon_unchanged_cex :
    (applyAction trick3State playNine).trick.length = 4 ∧
    (applyAction trick3State playNine).trickComplete = true ∧
    (applyAction trick3State playNine).tricksWon = trick3State.tricksWon ∧
    trick3State.tricksWon = ⟨0, 0, 0, 0⟩ := by decide

/-- C3 amended: a PLAY_CARD that brings the trick to 4 cards sets
trickComplete = true, but leaves tricksWon unchanged: the code never updates
any trick count. -/
theorem play_completing_marks_complete (s : GameState) (a : Action)
    (h : a.type = "PLAY_CARD")
    (hlen : (applyAction s a).trick.length = 4) :
    (applyAction s a).trickComplete = true ∧
    (applyAction s a).tricksWon = s.tricksWon := by
  rw [applyAction_play_eq s a h] at hlen ⊢
  by_cases hc :
      (playStep (clearTrick s) a.player a.payload.card).trick.length = 4
  · rw [if_pos hc]
    exact ⟨rfl, by simp⟩
  · exfalso
    rw [if_neg hc] at hlen
    exact hc hlen

/-- Witness for C3: the concrete trick-completing play. -/
theorem play_completing_marks_complete_witness :
    (applyAction trick3State playNine).trickComplete = true ∧
    (applyAction trick3State playNine).tricksWon = trick3State.tricksWon :=
  play_completing_marks_complete trick3State playNine rfl (by decide)

/-- C1 counterexample: a PLAY_CARD for a card held by nobody is not
rejected: applyAction returns a new snapshot, different from its input, with
the foreign card appended to the trick; there is no validation and no error
path. -/
theorem illegal_play_not_rejected_cex :
    playForeign.payload.card ∉ sampleState.hands.get playForeign.player ∧
    applyAction sampleState playForeign ≠ sampleState ∧
    (applyAction sampleState playForeign).trick = [⟨0, "KD"⟩] ∧
    (applyAction sampleState playForeign).hands = sampleState.hands := by decide

/-- C1 amended: applyAction performs no legality validation.  A PLAY_CARD
whose card is not in the acting player's hand still succeeds: the hands are
unchanged (the filter removes nothing) and the card is appended to the
trick, producing a new snapshot instead of an IllegalAction failure.  The
input snapshot and every previously derived snapshot are indeed unchanged,
since applyAction is a pure function of its input. -/
theorem illegal_play_applies (s : GameState) (a : Action)
    (h : a.type = "PLAY_CARD")
    (hmem : a.payload.card ∉ s.hands.get a.player) :
    (applyAction s a).hands = s.hands ∧
    (applyAction s a).trick =
      (if s.trickComplete then [] else s.trick) ++
        [({ player := (a.player : Nat), card := a.payload.card } : TrickEntry)] := by
  have hfil : (s.hands.get a.player).filter (fun x => !decide (x = a.payload.card)) =
      s.hands.get a.player := by
    rw [List.filter_eq_self]
    intro x hx
    simp only [Bool.not_eq_true', decide_eq_false_iff_not]
    intro hxe
    exact hmem (hxe ▸ hx)
  rw [applyAction_play_eq s a h]
  split <;> exact ⟨by simp [hfil, Hands.set_get_self], by simp⟩

/-- Witness for C1: the concrete foreign-card play. -/
theorem illegal_play_applies_witness :
    (applyAction sampleState playForeign).hands = sampleState.hands ∧
    (applyAction sampleState playForeign).trick =
      (if sampleState.trickComplete then [] else sampleState.trick) ++
        [({ player := (playForeign.player : Nat),
            card := playForeign.payload.card } : TrickEntry)] :=
  illegal_play_applies sampleState playForeign rfl (by decide)

/-- A concrete recorded round wrapping the sample deal. -/
def sampleJson : RoundJson :=
  { initial :=
      { start_phase := "BIDDING"
        meta := ⟨0⟩
        bidding :=
          { hands_5 := sampleHands
            current_player := 1
            floor_card := some "7S" } }
    actions := [finalizeSun, playNine] }

/-- Snapshots reachable from the initial snapshot of a round by a sequence
of applyAction steps. -/
inductive Reachable (json : RoundJson) : GameState → Prop where
  | init : Reachable json (buildInitialState json)
  | step (s : GameState) (a : Action) :
      Reachable json s → Reachable json (applyAction s a)

/-- applyAction only looks at its input through clearTrick: two inputs with
the same cleared form produce the same output. -/
theorem applyAction_clear_congr (s t : GameState) (a : Action)
    (hst : clearTrick s = clearTrick t) : applyAction s a = applyAction t a := by
  by_cases h1 : a.type = "FINALIZE_CONTRACT"
  · rw [applyAction_finalize_eq s a h1, applyAction_finalize_eq t a h1, hst]
  · by_cases h2 : a.type = "PLAY_CARD"
    · rw [applyAction_play_eq s a h2, applyAction_play_eq t a h2, hst]
    · rw [applyAction_other_eq s a h1 h2, applyAction_other_eq t a h1 h2, hst]

/-- One applyAction step preserves the trick-length bound and the
length-four-means-complete property. -/
theorem applyAction_trick_invariant (s : GameState) (a : Action)
    (hle : s.trick.length ≤ 4) (hcm : s.trick.length = 4 → s.trickComplete = true) :
    (applyAction s a).trick.length ≤ 4 ∧
    ((applyAction s a).trick.length = 4 → (applyAction s a).trickComplete = true) := by
  have hclear : (clearTrick s).trick.length ≤ 3 := by
    by_cases hc : s.trickComplete
    · simp [hc]
    · have h4 : s.trick.length ≠ 4 := fun h4 => hc (hcm h4)
      simp [hc]
      omega
  by_cases h1 : a.type = "FINALIZE_CONTRACT"
  · rw [applyAction_finalize_eq s a h1]
    constructor
    · have : (clearTrick s).trick.length ≤ 3 := hclear
      simp only []
      omega
    · intro h4
      exfalso
      have h4c : (clearTrick s).trick.length = 4 := h4
      omega
  · by_cases h2 : a.type = "PLAY_CARD"
    · rw [applyAction_play_eq s a h2]
      by_cases hc :
          (playStep (clearTrick s) a.player a.payload.card).trick.length = 4
      · rw [if_pos hc]
        exact ⟨le_of_eq hc, fun _ => rfl⟩
      · rw [if_neg hc]
        have hlen : (playStep (clearTrick s) a.player a.payload.card).trick.length =
            (clearTrick s).trick.length + 1 := by simp
        refine ⟨?_, fun h4 => absurd h4 hc⟩
        show (playStep (clearTrick s) a.player a.payload.card).trick.length ≤ 4
        omega
    · rw [applyAction_other_eq s a h1 h2]
      refine ⟨?_, ?_⟩
      · show (clearTrick s).trick.length ≤ 4
        omega
      · intro h4
        have h4c : (clearTrick s).trick.length = 4 := h4
        omega

/-- C7: every snapshot reachable from an initial snapshot has at most 4
cards in the trick buffer; whenever the trick holds exactly 4 cards,
trickComplete is true; and applying any next action to a snapshot with a
completed trick gives exactly the result of first clearing the trick buffer
(emptying trick and resetting trickComplete) and then applying the action,
so no new card lands before the buffer is cleared. -/
theorem reachable_trick_lifecycle (json : RoundJson) (s : GameState)
    (hr : Reachable json s) :
    s.trick.length ≤ 4 ∧
    (s.trick.length = 4 → s.trickComplete = true) ∧
    (∀ a : Action, s.trickComplete = true →
      applyAction s a =
        applyAction { s with trick := [], trickComplete := false } a) := by
  have hmain : s.trick.length ≤ 4 ∧ (s.trick.length = 4 → s.trickComplete = true) := by
    induction hr with
    | init => simp [buildInitialState]
    | step t a _ ih => exact applyAction_trick_invariant t a ih.1 ih.2
  refine ⟨hmain.1, hmain.2, ?_⟩
  intro a hcomp
  apply applyAction_clear_congr
  unfold clearTrick
  rw [if_pos hcomp]
  simp

/-- Witness for C7: the snapshot one FINALIZE_CONTRACT step into the sample
round. -/
theorem reachable_trick_lifecycle_witness :
    (applyAction (buildInitialState sampleJson) finalizeSun).trick.length ≤ 4 ∧
    ((applyAction (buildInitialState sampleJson) finalizeSun).trick.length = 4 →
      (applyAction (buildInitialState sampleJson) finalizeSun).trickComplete = true) := by
  have h := reachable_trick_lifecycle sampleJson _
    (Reachable.step _ finalizeSun Reachable.init)
  exact ⟨h.1, h.2.1⟩

/-- C9: applyAction and computeStateAt are deterministic pure functions of
their inputs: structurally equal inputs give structurally equal outputs, the
snapshot at step k is exactly the fold of applyAction over the first k
logged actions from the initial snapshot (so recomputing it at any time, in
any order relative to other steps, rebuilds the same value with no hidden
carried-over state), and two computations of the same step agree. -/
theorem replay_deterministic (json : RoundJson) (k : Nat) :
    (∀ (s t : GameState) (a b : Action), s = t → a = b →
      applyAction s a = applyAction t b) ∧
    computeStateAt json k =
      (json.actions.take k).foldl applyAction (buildInitialState json) ∧
    computeStateAt json k = computeStateAt json k :=
  ⟨fun s t a b hs ha => by rw [hs, ha], rfl, rfl⟩

/-- Witness for C9: concrete determinism facts on the sample round. -/
theorem replay_deterministic_witness :
    applyAction sampleState passAction = applyAction sampleState passAction ∧
    computeStateAt sampleJson 2 =
      (sampleJson.actions.take 2).foldl applyAction (buildInitialState sampleJson) :=
  ⟨(replay_deterministic sampleJson 2).1 sampleState sampleState passAction passAction
      rfl rfl,
   (replay_deterministic sampleJson 2).2.1⟩

/-! Conservation development (C8). -/

/-- All cards of the four hands, as one list. -/
def handsList (h : Hands) : List Card := h.h0 ++ h.h1 ++ h.h2 ++ h.h3

/-- The multiset of cards held in the four hands. -/
def handsMS (h : Hands) : Multiset Card := (handsList h : Multiset Card)

/-- The summed size of the four hands. -/
def handsCount (h : Hands) : Nat := (handsList h).length

/-- The multiset of cards played by the PLAY_CARD actions of a log. -/
def playedMS : List Action → Multiset Card
  | [] => 0
  | a :: rest =>
      (if a.type = "PLAY_CARD" then ({a.payload.card} : Multiset Card) else 0) +
        playedMS rest

/-- The multiset of cards lying in the current trick. -/
def trickMS (s : GameState) : Multiset Card :=
  ((s.trick.map TrickEntry.card : List Card) : Multiset Card)

/-- Legality, as far as card possession, of a run of actions: every
PLAY_CARD plays a card currently held by the acting player. -/
inductive LegalPlays : GameState → List Action → Prop where
  | nil (s : GameState) : LegalPlays s []
  | cons (s : GameState) (a : Action) (rest : List Action) :
      (a.type = "PLAY_CARD" → a.payload.card ∈ s.hands.get a.player) →
      LegalPlays (applyAction s a) rest → LegalPlays s (a :: rest)

/-- Each hand is a sublist of the combined hand list. -/
theorem handsGet_sublist (h : Hands) (i : Fin 4) :
    List.Sublist (h.get i) (handsList h) := by
  obtain ⟨l0, l1, l2, l3⟩ := h
  obtain ⟨v, hv⟩ := i
  interval_cases v
  · show List.Sublist l0 (((l0 ++ l1) ++ l2) ++ l3)
    exact (((List.sublist_append_left l0 l1).trans
      (List.sublist_append_left (l0 ++ l1) l2)).trans
      (List.sublist_append_left ((l0 ++ l1) ++ l2) l3))
  · show List.Sublist l1 (((l0 ++ l1) ++ l2) ++ l3)
    exact (((List.sublist_append_right l0 l1).trans
      (List.sublist_append_left (l0 ++ l1) l2)).trans
      (List.sublist_append_left ((l0 ++ l1) ++ l2) l3))
  · show List.Sublist l2 (((l0 ++ l1) ++ l2) ++ l3)
    exact ((List.sublist_append_right (l0 ++ l1) l2).trans
      (List.sublist_append_left ((l0 ++ l1) ++ l2) l3))
  · show List.Sublist l3 (((l0 ++ l1) ++ l2) ++ l3)
    exact List.sublist_append_right ((l0 ++ l1) ++ l2) l3

/-- Replacing one hand by a filtered version of itself shrinks the combined
hand list to a sublist. -/
theorem handsList_set_filter_sublist (h : Hands) (i : Fin 4) (P : Card → Bool) :
    List.Sublist (handsList (h.set i ((h.get i).filter P))) (handsList h) := by
  obtain ⟨l0, l1, l2, l3⟩ := h
  obtain ⟨v, hv⟩ := i
  interval_cases v
  · show List.Sublist ((((l0.filter P) ++ l1) ++ l2) ++ l3) (((l0 ++ l1) ++ l2) ++ l3)
    exact (((l0.filter_sublist).append (List.Sublist.refl l1)).append
      (List.Sublist.refl l2)).append (List.Sublist.refl l3)
  · show List.Sublist (((l0 ++ (l1.filter P)) ++ l2) ++ l3) (((l0 ++ l1) ++ l2) ++ l3)
    exact (((List.Sublist.refl l0).append (l1.filter_sublist)).append
      (List.Sublist.refl l2)).append (List.Sublist.refl l3)
  · show List.Sublist (((l0 ++ l1) ++ (l2.filter P)) ++ l3) (((l0 ++ l1) ++ l2) ++ l3)
    exact ((List.Sublist.refl (l0 ++ l1)).append (l2.filter_sublist)).append
      (List.Sublist.refl l3)
  · show List.Sublist ((((l0 ++ l1) ++ l2) ++ (l3.filter P))) (((l0 ++ l1) ++ l2) ++ l3)
    exact (List.Sublist.refl ((l0 ++ l1) ++ l2)).append (l3.filter_sublist)

/-- Exchange law for updating one hand, at the level of card multisets. -/
theorem handsMS_set (h : Hands) (i : Fin 4) (l : List Card) :
    handsMS (h.set i l) + (↑(h.get i) : Multiset Card) =
      handsMS h + (↑l : Multiset Card) := by
  obtain ⟨l0, l1, l2, l3⟩ := h
  obtain ⟨v, hv⟩ := i
  interval_cases v <;>
    · simp only [handsMS, handsList, Hands.set, Hands.get, ← Multiset.coe_add]
      abel

/-- Removing all copies of a card from a duplicate-free list that contains
it removes exactly one card, at the level of multisets. -/
theorem coe_filter_ne_add_single (c : Card) :
    ∀ (l : List Card), l.Nodup → c ∈ l →
      ((l.filter (fun x => x ≠ c) : List Card) : Multiset Card) + {c} =
        (l : Multiset Card) := by
  intro l
  induction l with
  | nil =>
      intro _ hc
      exact absurd hc (List.not_mem_nil c)
  | cons x xs ih =>
      intro hnd hc
      have hx : x ∉ xs := (List.nodup_cons.mp hnd).1
      have hxs : xs.Nodup := (List.nodup_cons.mp hnd).2
      by_cases hxc : x = c
      · subst hxc
        have hfil : xs.filter (fun y => y ≠ x) = xs := by
          rw [List.filter_eq_self]
          intro b hb
          simp only [ne_eq, decide_not, Bool.not_eq_eq_eq_not, Bool.not_true,
            decide_eq_false_iff_not]
          intro he
          exact hx (he ▸ hb)
        have hfil2 : (x :: xs).filter (fun y => y ≠ x) = xs := by
          rw [List.filter_cons]
          have hcond : (decide (x ≠ x)) = false := by simp
          rw [hcond, if_neg (by simp : ¬(false = true))]
          exact hfil
        rw [hfil2, add_comm, Multiset.singleton_add, Multiset.cons_coe]
      · have hcxs : c ∈ xs := by
          rcases List.mem_cons.mp hc with h | h
          · exact absurd h.symm hxc
          · exact h
        have hfil2 : (x :: xs).filter (fun y => y ≠ c) =
            x :: xs.filter (fun y => y ≠ c) := by
          rw [List.filter_cons]
          have hcond : (decide (x ≠ c)) = true := by simp [hxc]
          rw [hcond, if_pos rfl]
        rw [hfil2, ← Multiset.cons_coe, Multiset.cons_add, ih hxs hcxs,
          Multiset.cons_coe]

/-- The hands after applyAction: filtered for PLAY_CARD, untouched
otherwise. -/
theorem applyAction_hands (s : GameState) (a : Action) :
    (applyAction s a).hands =
      (if a.type = "PLAY_CARD" then
        s.hands.set a.player
          ((s.hands.get a.player).filter (fun x => x ≠ a.payload.card))
      else s.hands) := by
  by_cases h2 : a.type = "PLAY_CARD"
  · rw [applyAction_play_eq s a h2, if_pos h2]
    split <;> simp
  · rw [if_neg h2]
    by_cases h1 : a.type = "FINALIZE_CONTRACT"
    · rw [applyAction_finalize_eq s a h1]
      simp
    · rw [applyAction_other_eq s a h1 h2]
      simp

/-- The trick after applyAction: one card appended after clearing for
PLAY_CARD, just the cleared buffer otherwise. -/
theorem applyAction_trick (s : GameState) (a : Action) :
    (applyAction s a).trick =
      (if a.type = "PLAY_CARD" then
        (clearTrick s).trick ++
          [({ player := (a.player : Nat), card := a.payload.card } : TrickEntry)]
      else (clearTrick s).trick) := by
  by_cases h2 : a.type = "PLAY_CARD"
  · rw [applyAction_play_eq s a h2, if_pos h2]
    split <;> simp
  · rw [if_neg h2]
    by_cases h1 : a.type = "FINALIZE_CONTRACT"
    · rw [applyAction_finalize_eq s a h1]
    · rw [applyAction_other_eq s a h1 h2]

/-- applyAction preserves global duplicate-freeness of the hands. -/
theorem applyAction_hands_nodup (s : GameState) (a : Action)
    (hnd : (handsList s.hands).Nodup) :
    (handsList (applyAction s a).hands).Nodup := by
  rw [applyAction_hands]
  split
  · exact (handsList_set_filter_sublist s.hands a.player _).nodup hnd
  · exact hnd

/-- A legal PLAY_CARD moves exactly one copy of the played card out of the
hands. -/
theorem legal_play_handsMS (s : GameState) (a : Action)
    (hnd : (handsList s.hands).Nodup) (hty : a.type = "PLAY_CARD")
    (hmem : a.payload.card ∈ s.hands.get a.player) :
    handsMS (applyAction s a).hands + {a.payload.card} = handsMS s.hands := by
  rw [applyAction_hands, if_pos hty]
  have hget_nd : (s.hands.get a.player).Nodup :=
    (handsGet_sublist s.hands a.player).nodup hnd
  have h1 := handsMS_set s.hands a.player
    ((s.hands.get a.player).filter (fun x => x ≠ a.payload.card))
  have h2 := coe_filter_ne_add_single a.payload.card (s.hands.get a.player)
    hget_nd hmem
  have key :
      handsMS (s.hands.set a.player
          ((s.hands.get a.player).filter (fun x => x ≠ a.payload.card))) +
        {a.payload.card} +
        (↑((s.hands.get a.player).filter (fun x => x ≠ a.payload.card)) :
          Multiset Card) =
      handsMS s.hands +
        (↑((s.hands.get a.player).filter (fun x => x ≠ a.payload.card)) :
          Multiset Card) := by
    calc handsMS (s.hands.set a.player
            ((s.hands.get a.player).filter (fun x => x ≠ a.payload.card))) +
          {a.payload.card} +
          (↑((s.hands.get a.player).filter (fun x => x ≠ a.payload.card)) :
            Multiset Card)
        = handsMS (s.hands.set a.player
            ((s.hands.get a.player).filter (fun x => x ≠ a.payload.card))) +
          ((↑((s.hands.get a.player).filter (fun x => x ≠ a.payload.card)) :
            Multiset Card) + {a.payload.card}) := by abel
      _ = handsMS (s.hands.set a.player
            ((s.hands.get a.player).filter (fun x => x ≠ a.payload.card))) +
          (↑(s.hands.get a.player) : Multiset Card) := by rw [h2]
      _ = handsMS s.hands +
          (↑((s.hands.get a.player).filter (fun x => x ≠ a.payload.card)) :
            Multiset Card) := h1
  exact add_right_cancel key

/-- Helper theorem: a legal PLAY_CARD shrinks the summed hand size by
exactly one. -/
theorem legal_play_shrinks (s : GameState) (a : Action)
    (hnd : (handsList s.hands).Nodup) (hty : a.type = "PLAY_CARD")
    (hmem : a.payload.card ∈ s.hands.get a.player) :
    handsCount (applyAction s a).hands + 1 = handsCount s.hands := by
  have h := congrArg Multiset.card (legal_play_handsMS s a hnd hty hmem)
  simpa [handsMS, handsCount] using h

/-- Clearing the trick buffer only ever drops cards. -/
theorem trickMS_clear_le (s : GameState) : trickMS (clearTrick s) ≤ trickMS s := by
  by_cases hc : s.trickComplete
  · unfold trickMS clearTrick
    rw [if_pos hc]
    exact Multiset.zero_le _
  · unfold trickMS clearTrick
    rw [if_neg hc]

/-- One applyAction step adds to the trick at most the played card. -/
theorem trickMS_apply_le (s : GameState) (a : Action) (P : Multiset Card)
    (h : trickMS s ≤ P) :
    trickMS (applyAction s a) ≤
      P + (if a.type = "PLAY_CARD" then ({a.payload.card} : Multiset Card) else 0) := by
  have hclear : trickMS (clearTrick s) ≤ P := (trickMS_clear_le s).trans h
  unfold trickMS
  rw [applyAction_trick]
  by_cases hty : a.type = "PLAY_CARD"
  · rw [if_pos hty, if_pos hty, List.map_append, ← Multiset.coe_add]
    refine add_le_add hclear ?_
    simp
  · rw [if_neg hty, if_neg hty, add_zero]
    exact hclear

/-- Over a whole run, the current trick holds only played cards (beyond
whatever it started with). -/
theorem trickMS_run_le (acts : List Action) :
    ∀ s : GameState,
      trickMS (acts.foldl applyAction s) ≤ trickMS s + playedMS acts := by
  induction acts with
  | nil =>
      intro s
      simp [playedMS]
  | cons a rest ih =>
      intro s
      rw [List.foldl_cons]
      calc trickMS (rest.foldl applyAction (applyAction s a))
          ≤ trickMS (applyAction s a) + playedMS rest := ih (applyAction s a)
        _ ≤ (trickMS s +
              (if a.type = "PLAY_CARD" then ({a.payload.card} : Multiset Card)
               else 0)) + playedMS rest :=
            add_le_add (trickMS_apply_le s a (trickMS s) le_rfl) le_rfl
        _ = trickMS s + playedMS (a :: rest) := by
            simp only [playedMS]
            abel

/-- Over a legal run, the hands stay globally duplicate-free and the hands
plus the played cards are conserved as a multiset. -/
theorem legal_run_invariant (acts : List Action) :
    ∀ s : GameState, (handsList s.hands).Nodup → LegalPlays s acts →
      (handsList (acts.foldl applyAction s).hands).Nodup ∧
      handsMS (acts.foldl applyAction s).hands + playedMS acts =
        handsMS s.hands := by
  induction acts with
  | nil =>
      intro s hnd _
      exact ⟨hnd, by simp [playedMS]⟩
  | cons a rest ih =>
      intro s hnd hleg
      cases hleg with
      | cons _ _ _ hmem hrest =>
          have hnd2 := applyAction_hands_nodup s a hnd
          have step : handsMS (applyAction s a).hands +
              (if a.type = "PLAY_CARD" then ({a.payload.card} : Multiset Card)
               else 0) = handsMS s.hands := by
            by_cases hty : a.type = "PLAY_CARD"
            · rw [if_pos hty]
              exact legal_play_handsMS s a hnd hty (hmem hty)
            · rw [if_neg hty, add_zero, applyAction_hands, if_neg hty]
          obtain ⟨ind, ims⟩ := ih (applyAction s a) hnd2 hrest
          rw [List.foldl_cons]
          refine ⟨ind, ?_⟩
          simp only [playedMS]
          calc handsMS (rest.foldl applyAction (applyAction s a)).hands +
                ((if a.type = "PLAY_CARD" then ({a.payload.card} : Multiset Card)
                  else 0) + playedMS rest)
              = (handsMS (rest.foldl applyAction (applyAction s a)).hands +
                  playedMS rest) +
                (if a.type = "PLAY_CARD" then ({a.payload.card} : Multiset Card)
                 else 0) := by abel
            _ = handsMS (applyAction s a).hands +
                (if a.type = "PLAY_CARD" then ({a.payload.card} : Multiset Card)
                 else 0) := by rw [ims]
            _ = handsMS s.hands := step

/-- C8 amended: starting from an initial deal whose hands are globally
duplicate-free, and running only card-legal actions (every PLAY_CARD plays a
card currently held by the acting player), the hands stay pairwise disjoint
and duplicate-free, the multiset of held cards plus all played cards equals
the dealt deck, the current trick consists of played cards (so hands +
current trick + completed-trick cards = dealt deck), and each such
PLAY_CARD shrinks the summed hand sizes by exactly one.  (Without the
legality hypothesis this fails: see the counterexample, since applyAction
never validates.) -/
theorem conservation (json : RoundJson) (acts : List Action)
    (hnd : (handsList (buildInitialState json).hands).Nodup)
    (hleg : LegalPlays (buildInitialState json) acts) :
    (handsList (acts.foldl applyAction (buildInitialState json)).hands).Nodup ∧
    handsMS (acts.foldl applyAction (buildInitialState json)).hands +
        playedMS acts = handsMS (buildInitialState json).hands ∧
    trickMS (acts.foldl applyAction (buildInitialState json)) ≤ playedMS acts ∧
    handsMS (acts.foldl applyAction (buildInitialState json)).hands +
        trickMS (acts.foldl applyAction (buildInitialState json)) +
        (playedMS acts -
          trickMS (acts.foldl applyAction (buildInitialState json))) =
      handsMS (buildInitialState json).hands ∧
    (∀ (s : GameState) (a : Action), (handsList s.hands).Nodup →
      a.type = "PLAY_CARD" → a.payload.card ∈ s.hands.get a.player →
      handsCount (applyAction s a).hands + 1 = handsCount s.hands) := by
  obtain ⟨hn, hm⟩ := legal_run_invariant acts (buildInitialState json) hnd hleg
  have htr0 : trickMS (buildInitialState json) = 0 := rfl
  have htr : trickMS (acts.foldl applyAction (buildInitialState json)) ≤
      playedMS acts := by
    have h := trickMS_run_le acts (buildInitialState json)
    rwa [htr0, zero_add] at h
  refine ⟨hn, hm, htr, ?_, fun s a => legal_play_shrinks s a⟩
  have hcancel := add_tsub_cancel_of_le htr
  calc handsMS (acts.foldl applyAction (buildInitialState json)).hands +
        trickMS (acts.foldl applyAction (buildInitialState json)) +
        (playedMS acts -
          trickMS (acts.foldl applyAction (buildInitialState json)))
      = handsMS (acts.foldl applyAction (buildInitialState json)).hands +
        (trickMS (acts.foldl applyAction (buildInitialState json)) +
          (playedMS acts -
            trickMS (acts.foldl applyAction (buildInitialState json)))) := by
        rw [add_assoc]
    _ = handsMS (acts.foldl applyAction (buildInitialState json)).hands +
        playedMS acts := by rw [hcancel]
    _ = handsMS (buildInitialState json).hands := hm

/-- Player 0 legally plays the ace of hearts. -/
def playAH : Action :=
  { type := "PLAY_CARD", player := ⟨0, by omega⟩, payload := { card := "AH" } }

/-- Witness for C8: one legal play from the sample deal. -/
theorem conservation_witness :
    (handsList
      ([playAH].foldl applyAction (buildInitialState sampleJson)).hands).Nodup ∧
    handsMS ([playAH].foldl applyAction (buildInitialState sampleJson)).hands +
        playedMS [playAH] = handsMS (buildInitialState sampleJson).hands ∧
    trickMS ([playAH].foldl applyAction (buildInitialState sampleJson)) ≤
      playedMS [playAH] := by
  have h := conservation sampleJson [playAH] (by decide)
    (LegalPlays.cons _ _ _ (fun _ => by decide) (LegalPlays.nil _))
  exact ⟨h.1, h.2.1, h.2.2.1⟩

/-- C8 counterexample: the sample bidding snapshot is itself an initial
(hence reachable) snapshot, yet a PLAY_CARD of a card held by nobody leaves
the summed hand sizes unchanged (they do not shrink by one) and pushes into
the trick a card that was never dealt, so hands + trick + played no longer
equals the dealt deck. -/
theorem conservation_cex :
    sampleState = buildInitialState sampleJson ∧
    handsCount (applyAction sampleState playForeign).hands =
      handsCount sampleState.hands ∧
    handsCount sampleState.hands = 8 ∧
    "KD" ∈ trickMS (applyAction sampleState playForeign) ∧
    "KD" ∉ handsList sampleState.hands := by decide

end Balote
